import Mathlib

/-!
Verification of the project/config discovery and merge logic of the
tauri-action build helper (sources: `src/utils.ts`, `src/init-project.ts`,
`src/types.ts`).

The TypeScript code is shallowly embedded as executable Lean functions.
Modelling conventions:

* JSON values (the results of `JSON.parse` / `JSON5.parse` / TOML parsing)
  are modelled by the dynamic `Json` type below.  A JavaScript value that
  may be `undefined` is modelled as `Option Json`, with `none` standing for
  `undefined` (and, where a function returns `null`, `some .null`).
  JSON arrays are not needed by any property considered here and are
  elided from `Json`.
* File contents are abstracted by the results each parser of the source
  would produce on the underlying text (`Doc` below): `JSON.parse`,
  `JSON5.parse` and `@iarna/toml` are deterministic functions of the text,
  so a file is represented by its parse views.  `.gitignore` contents are
  represented by the list of ignore rules they declare.
* Paths are lists of components (POSIX, separator `/`).
* Thrown exceptions / `process.exit` calls are modelled by `Except JsError`.
-/

namespace TauriAction

/-- Dynamic JSON-ish value, the result of parsing a config or manifest.
Arrays are not exercised by the properties below and are elided. -/
inductive Json where
  | null : Json
  | bool : Bool → Json
  | num : Int → Json
  | str : String → Json
  | obj : List (String × Json) → Json
deriving Inhabited

/-- A path, as a list of components (POSIX separator). -/
abbrev Path := List String

/-- Errors thrown by the embedded code (exceptions and fatal exits). -/
inductive JsError where
  | fileNotFound : Path → JsError       -- readFileSync ENOENT
  | parseError : Path → JsError         -- JSON.parse failure on the file at the path
  | tomlParseError : Path → JsError     -- @iarna/toml parse failure
  | typeError : JsError                 -- property access / method call on a bad value
  | exitNameVersion : JsError           -- process.exit(1): name/version unresolved
  | exitTauriPathNotFound : JsError     -- process.exit(1): Failed to resolve Tauri path
  | initCommandFailed : JsError         -- non-zero exit of the `init` command
  | iconCommandFailed : JsError         -- non-zero exit of the `icon` command
deriving DecidableEq

/-- Abstract contents of a file, given by the result each parser of the
source would produce on the raw text (`none` = that parser throws). -/
structure Doc where
  strictJson : Option Json := none
  json5 : Option Json := none
  toml : Option Json := none
  ignoreRules : List String := []
deriving Inhabited

/-- A filesystem: an association of paths to file contents.  The list
order is the traversal order seen by `globSync`. -/
structure FS where
  files : List (Path × Doc)
deriving Inhabited

/-- Contents of a file, `none` when the path does not exist
(`existsSync` false / `readFileSync` throws). -/
def readFile (fs : FS) (p : Path) : Option Doc :=
  (fs.files.find? (fun f => f.1 = p)).map (fun f => f.2)

/-- existsSync. -/
def existsFile (fs : FS) (p : Path) : Bool :=
  (readFile fs p).isSome

/-- writeFileSync: replace the contents in place, or append a new file. -/
def writeFile (fs : FS) (p : Path) (d : Doc) : FS :=
  if fs.files.any (fun f => f.1 = p) then
    ⟨fs.files.map (fun f => if f.1 = p then (p, d) else f)⟩
  else
    ⟨fs.files ++ [(p, d)]⟩

/-! ### JavaScript value semantics -/

/-- Field lookup inside a JS object literal (first binding wins;
JS objects cannot hold duplicate keys, so this is exact). -/
def objLookup (l : List (String × Json)) (k : String) : Option Json :=
  (l.find? (fun kv => kv.1 = k)).map (fun kv => kv.2)

/-- JS property assignment `o[k] = v` on an object's field list: an
existing key keeps its position and gets the new value, a fresh key is
appended (JS insertion-order semantics). -/
def objSet : List (String × Json) → String → Json → List (String × Json)
  | [], k, v => [(k, v)]
  | kv :: rest, k, v =>
    if kv.1 = k then (k, v) :: rest else kv :: objSet rest k v

/-- Total property read `j.k` for a value known not to be
null/undefined: objects look the key up, primitives yield `undefined`. -/
def jsonGet : Json → String → Option Json
  | .obj l, k => objLookup l k
  | _, _ => none

/-- Plain JS property access `j.k`: throws TypeError on `null`,
otherwise as `jsonGet`. -/
def jsGet : Json → String → Except JsError (Option Json)
  | .null, _ => .error .typeError
  | j, k => .ok (jsonGet j k)

/-- Plain JS property access on a possibly-undefined value: access on
`undefined` throws. -/
def jsGetOpt : Option Json → String → Except JsError (Option Json)
  | none, _ => .error .typeError
  | some j, k => jsGet j k

/-- Optional-chain access `o?.k`: null/undefined short-circuit to
`undefined`. -/
def optChainGet : Option Json → String → Option Json
  | none, _ => none
  | some .null, _ => none
  | some j, k => jsonGet j k

/-- JS truthiness of a possibly-undefined value. -/
def jsTruthy : Option Json → Bool
  | none => false
  | some .null => false
  | some (.bool b) => b
  | some (.num n) => n != 0
  | some (.str s) => s != ""
  | some (.obj _) => true

/-- JS `a || b`. -/
def jsOr (a b : Option Json) : Option Json :=
  if jsTruthy a then a else b

/-- Object spread followed by one explicit property,
`\x7b...base, k: v\x7d`: spreading `undefined`/`null` contributes no
fields.  (Spreading a primitive would contribute its index properties;
no value flowing here is a primitive.) -/
def jsSpread1 (base : Option Json) (k : String) (v : Json) : Json :=
  match base with
  | some (.obj l) => .obj (objSet l k v)
  | _ => .obj [(k, v)]

/-- JS property assignment `o.k = v` in strict mode: assigning on a
non-object throws TypeError. -/
def jsSetField : Json → String → Json → Except JsError Json
  | .obj l, k, v => .ok (.obj (objSet l k v))
  | _, _, _ => .error .typeError

/-! ### String helpers (JS `String.prototype` methods used by the code) -/

/-- Whether `pat` is a prefix of `l`. -/
def listStartsWith : List Char → List Char → Bool
  | _, [] => true
  | [], _ :: _ => false
  | a :: as, b :: bs => a = b && listStartsWith as bs

/-- Whether `pat` occurs as a contiguous sublist of `l`
(JS `String.prototype.includes`). -/
def listIncludes (pat : List Char) : List Char → Bool
  | [] => listStartsWith [] pat
  | a :: as => listStartsWith (a :: as) pat || listIncludes pat as

/-- Replace the first occurrence of `pat` (JS
`String.prototype.replace` with a string pattern); the empty pattern
matches at position 0. -/
def listReplaceFirst (pat repl : List Char) : List Char → List Char
  | [] => if listStartsWith [] pat then repl else []
  | a :: as =>
    if listStartsWith (a :: as) pat then repl ++ (a :: as).drop pat.length
    else a :: listReplaceFirst pat repl as

/-- JS `s.includes(pat)`. -/
def strIncludes (s pat : String) : Bool :=
  listIncludes pat.data s.data

/-- JS `s.replace(pat, repl)` with a string pattern (first occurrence
only). -/
def strReplaceFirst (s pat repl : String) : String :=
  ⟨listReplaceFirst pat.data repl.data s.data⟩

/-- JS `s.endsWith(pat)`. -/
def strEndsWith (s pat : String) : Bool :=
  listStartsWith s.data.reverse pat.data.reverse

/-- JS `s.replace(/ /g, '-')`: every space becomes a hyphen. -/
def replaceSpaces (s : String) : String :=
  ⟨s.data.map (fun c => if c = ' ' then '-' else c)⟩

/-! ### Node `path` module (POSIX) -/

/-- Split a character list on `/` (the component list of a POSIX path
string, as `split('/')` would produce it). -/
def splitOnSlash : List Char → List Char → List String
  | cur, [] => [⟨cur.reverse⟩]
  | cur, c :: cs =>
    if c = '/' then (⟨cur.reverse⟩ : String) :: splitOnSlash [] cs
    else splitOnSlash (c :: cur) cs

/-- The `/`-separated components of a path string. -/
def pathComponents (s : String) : List String :=
  splitOnSlash [] s.data

/-- `path.basename`: the last non-empty component. -/
def basename (s : String) : String :=
  ((((pathComponents s).filter (fun c => c ≠ "")).getLast?).getD "")

/-- The suffix of the list starting at its last dot, if any. -/
def lastDotSuffix : List Char → Option (List Char)
  | [] => none
  | c :: cs =>
    match lastDotSuffix cs with
    | some s => some s
    | none => if c = '.' then some (c :: cs) else none

/-- `path.extname`: the basename's extension from its last dot; a dot
in leading position (dotfiles) yields the empty extension. -/
def extname (p : String) : String :=
  let b := basename p
  match lastDotSuffix b.data with
  | none => ""
  | some s => if s.length = b.data.length then "" else ⟨s⟩

/-- The component path of a relative POSIX path string, for
`path.join(dir, rel)` on the plain relative paths used here. -/
def splitPath (s : String) : Path := pathComponents s

/-- Render a component path back to a POSIX string. -/
def pathToString : Path → String
  | [] => ""
  | [c] => c
  | c :: rest => c ++ "/" ++ pathToString rest

/-! ### `src/utils.ts` : constants and `getAssetName` -/

/-- The fixed ordered multi-part suffix list (most specific first). -/
def extensions : List String :=
  [".app.tar.gz.sig", ".app.tar.gz", ".dmg", ".AppImage.tar.gz.sig",
   ".AppImage.tar.gz", ".AppImage", ".deb", ".msi.zip.sig", ".msi.zip",
   ".msi"]

/-- `ext` local of `getAssetName`: first suffix of `extensions` the
basename contains, else the filesystem extension. -/
def assetExt (assetPath : String) : String :=
  let b := basename assetPath
  ((extensions.filter (fun s => strIncludes b s)).headD (extname assetPath))

/-- `filename` local of `getAssetName`: the basename with the first
occurrence of the matched suffix removed. -/
def assetFilename (assetPath : String) : String :=
  strReplaceFirst (basename assetPath) (assetExt assetPath) ""

/-- `arch` local of `getAssetName`: an architecture tag, only for the
app-bundle archive suffixes. -/
def assetArch (assetPath : String) : String :=
  let ext := assetExt assetPath
  if ext = ".app.tar.gz.sig" ∨ ext = ".app.tar.gz" then
    if strIncludes assetPath "universal-apple-darwin" then "_universal"
    else if strIncludes assetPath "aarch64-apple-darwin" then "_aarch64"
    else "_x64"
  else ""

/-- `getAssetName` (src/utils.ts:27). -/
def getAssetName (assetPath : String) : String :=
  if strIncludes assetPath "/debug/" then
    assetFilename assetPath ++ "-debug" ++ assetArch assetPath ++ assetExt assetPath
  else
    assetFilename assetPath ++ assetArch assetPath ++ assetExt assetPath


/-! ### `src/utils.ts` : `getPackageJson`, `getTauriDir` -/

/-- `getPackageJson` (src/utils.ts:47): the parsed `package.json` under
`root`, `none` (JS `null`) when the file is absent; a present but
strict-JSON-invalid file throws. -/
def getPackageJson (fs : FS) (root : Path) : Except JsError (Option Json) :=
  let packageJsonPath := root ++ ["package.json"]
  match readFile fs packageJsonPath with
  | none => .ok none
  | some doc =>
    match doc.strictJson with
    | none => .error (.parseError packageJsonPath)
    | some j => .ok (some j)

/-- `getTauriDir` (src/utils.ts:57): glob `**/tauri.conf.json` under
`root`, honouring ignore rules from `.gitignore` when present, else the
built-in `node_modules`/`target` defaults; the first match's parent
directory wins.  Ignore rules are modelled at the granularity the
defaults use: a rule matches any relative path containing it as a
component. -/
def getTauriDir (fs : FS) (root : Path) : Option Path :=
  let rules :=
    match readFile fs (root ++ [".gitignore"]) with
    | some doc => doc.ignoreRules
    | none => ["node_modules", "target"]
  let paths := fs.files.filterMap (fun f =>
    if root.isPrefixOf f.1 then
      let rel := f.1.drop root.length
      if rel.getLast? = some "tauri.conf.json" ∧ ¬ rel.any (fun c => rules.contains c)
      then some rel else none
    else none)
  match paths with
  | [] => none
  | rel :: _ => some (root ++ rel.dropLast)

/-! ### `src/utils.ts` : `getConfig` -/

/-- The sibling `tauri.conf.json5` path,
`join(path, '..', 'tauri.conf.json5')`. -/
def siblingJson5 (p : Path) : Path :=
  p.dropLast ++ ["tauri.conf.json5"]

/-- `_getJson5Config` (src/utils.ts:150): the relaxed parse of the
contents, `none` on failure. -/
def getJson5Config (doc : Doc) : Option Json :=
  doc.json5

/-- `getConfig` (src/utils.ts:159): strict JSON first; on failure a
relaxed parse of the same contents; then a relaxed parse of the sibling
`tauri.conf.json5` (read without an existence check); if both relaxed
parses fail the original strict error `e` is re-thrown. -/
def getConfig (fs : FS) (p : Path) : Except JsError Json :=
  match readFile fs p with
  | none => .error (.fileNotFound p)
  | some doc =>
    match doc.strictJson with
    | some config => .ok config
    | none =>
      -- `e` is the strict-JSON parse error for the file at `p`
      match getJson5Config doc with
      | some json5Conf => .ok json5Conf
      | none =>
        match readFile fs (siblingJson5 p) with
        | none => .error (.fileNotFound (siblingJson5 p))
        | some sibling =>
          match getJson5Config sibling with
          | some json5Conf => .ok json5Conf
          | none => .error (.parseError p)

/-! ### `src/utils.ts` : `getTargetDir` -/

/-- The process environment, as far as `getTargetDir` consults it:
whether `CARGO_TARGET_DIR` is a key of `process.env`, and its value. -/
structure Env where
  hasCargoTargetDir : Bool
  cargoTargetDir : Option String

/-- One step of `getTargetDir`'s upward walk from `dir`: consult
`<dir>/.cargo/config`, falling back to `<dir>/.cargo/config.toml`, and
return a truthy `build.target-dir` value; otherwise recurse on the
parent.  The fuel starts at `dir.length`, which bounds the number of
`..` steps to the root. -/
def targetDirWalk (fs : FS) (defv : String) : Nat → Path → Except JsError Json
  | 0, _ => .ok (.str defv)
  | fuel + 1, dir =>
    if dir = [] then .ok (.str defv)
    else
      let p1 := dir ++ [".cargo", "config"]
      let cargoConfigPath := if existsFile fs p1 then p1 else dir ++ [".cargo", "config.toml"]
      match readFile fs cargoConfigPath with
      | some doc =>
        match doc.toml with
        | none => .error (.tomlParseError cargoConfigPath)
        | some cargoConfig =>
          let targetDir := optChainGet (jsonGet cargoConfig "build") "target-dir"
          if jsTruthy targetDir then .ok (targetDir.getD .null)
          else targetDirWalk fs defv fuel dir.dropLast
      | none => targetDirWalk fs defv fuel dir.dropLast

/-- `getTargetDir` (src/utils.ts:94): the `CARGO_TARGET_DIR`
environment entry wins outright when present; otherwise walk upward
from `crateDir` consulting `.cargo/config[.toml]` files; otherwise the
`<crateDir>/target` default. -/
def getTargetDir (env : Env) (fs : FS) (crateDir : Path) : Except JsError Json :=
  let defv := pathToString (crateDir ++ ["target"])
  if env.hasCargoTargetDir then
    .ok (.str (env.cargoTargetDir.getD defv))
  else
    targetDirWalk fs defv crateDir.length crateDir

/-! ### `src/utils.ts` : `getInfo` -/

/-- The `Info` record (src/types.ts:32).  The TS interface declares
`name`/`version` as strings; at runtime they hold whatever the lookups
produced, so they are modelled as possibly-undefined JS values. -/
structure Info where
  tauriPath : Option Path
  name : Option Json
  version : Option Json
  wixLanguage : Json

/-- The `if (config.package)` block of `getInfo` (src/utils.ts:190):
initial `name`/`version` from the config's `package`, with the
version-as-pointer rule for a `package.version` ending in `.json`. -/
def nameVersionFromPackage (fs : FS) (tauriDir : Path) (pkg : Option Json) :
    Except JsError (Option Json × Option Json) :=
  if jsTruthy pkg then
    let name := optChainGet pkg "productName"
    let version := optChainGet pkg "version"
    match version with
    | some (.str s) =>
      if strEndsWith s ".json" then
        let packageJsonPath := tauriDir ++ splitPath s
        match readFile fs packageJsonPath with
        | none => .error (.fileNotFound packageJsonPath)
        | some doc =>
          match doc.strictJson with
          | none => .error (.parseError packageJsonPath)
          | some parsed =>
            match jsGet parsed "version" with
            | .error e => .error e
            | .ok v => .ok (name, v)
      else .ok (name, version)
    | some .null => .ok (name, version)   -- null?.endsWith short-circuits
    | none => .ok (name, version)         -- undefined?.endsWith short-circuits
    | some _ => .error .typeError         -- .endsWith is not a function
  else .ok (none, none)

/-- JS `current || obj.key` with short-circuiting: the property is only
accessed (and can only throw) when `current` is falsy. -/
def jsOrAccess (current obj : Option Json) (key : String) :
    Except JsError (Option Json) :=
  if jsTruthy current then .ok current
  else jsGetOpt obj key

/-- The `if (!(name && version))` Cargo fallback of `getInfo`
(src/utils.ts:199): read `<tauriDir>/Cargo.toml` and fill the falsy
field(s) from its `package.name`/`package.version`. -/
def fillFromCargo (fs : FS) (tauriDir : Path) (name version : Option Json) :
    Except JsError (Option Json × Option Json) :=
  if jsTruthy name && jsTruthy version then .ok (name, version)
  else
    let manifestPath := tauriDir ++ ["Cargo.toml"]
    match readFile fs manifestPath with
    | none => .error (.fileNotFound manifestPath)
    | some doc =>
      match doc.toml with
      | none => .error (.tomlParseError manifestPath)
      | some cargoManifest =>
        let pkg := jsonGet cargoManifest "package"
        match jsOrAccess name pkg "name" with
        | .error e => .error e
        | .ok name1 =>
          match jsOrAccess version pkg "version" with
          | .error e => .error e
          | .ok version1 => .ok (name1, version1)

/-- The `config.tauri?.bundle?.windows?.wix?.language` lookup of
`getInfo` (src/utils.ts:207); its first access is plain, the rest are
optional-chained. -/
def wixFromConfig (config : Json) : Except JsError Json :=
  match jsGet config "tauri" with
  | .error e => .error e
  | .ok t =>
    let lang :=
      optChainGet (optChainGet (optChainGet (optChainGet t "bundle") "windows") "wix") "language"
    .ok (if jsTruthy lang then lang.getD .null else .str "en-US")

/-- `getInfo` (src/utils.ts:178). -/
def getInfo (fs : FS) (root : Path) (inConfigPath : Option Path) :
    Except JsError Info :=
  match getTauriDir fs root with
  | some tauriDir =>
    let configPath := inConfigPath.getD (tauriDir ++ ["tauri.conf.json"])
    match getConfig fs configPath with
    | .error e => .error e
    | .ok config =>
      match jsGet config "package" with
      | .error e => .error e
      | .ok pkg =>
        match nameVersionFromPackage fs tauriDir pkg with
        | .error e => .error e
        | .ok (name0, version0) =>
          match fillFromCargo fs tauriDir name0 version0 with
          | .error e => .error e
          | .ok (name, version) =>
            match wixFromConfig config with
            | .error e => .error e
            | .ok wixLanguage =>
              if jsTruthy name && jsTruthy version then
                .ok ⟨some tauriDir, name, version, wixLanguage⟩
              else .error .exitNameVersion
  | none =>
    match getPackageJson fs root with
    | .error e => .error e
    | .ok packageJson =>
      if jsTruthy packageJson then
        match (jsOr (optChainGet packageJson "displayName") (optChainGet packageJson "name")) with
        | some (.str s) =>
          .ok ⟨none, some (.str (replaceSpaces s)), optChainGet packageJson "version", .str "en-US"⟩
        | _ => .error .typeError   -- .replace on a non-string throws
      else
        .ok ⟨none, some (.str "app"), some (.str "0.1.0"), .str "en-US"⟩

/-! ### `src/init-project.ts` : `initProject`

The two external commands (`init`, `icon`) are abstracted as a
filesystem effect plus a failure flag (`execa` runs the command, which
may change the tree, and rejects on a non-zero exit).  The `Runner` is
opaque pass-through data and is not modelled. -/

/-- An external command: its effect on the filesystem and whether it
exits non-zero. -/
structure CmdSpec where
  effect : FS → FS
  fails : Bool

/-- The world `initProject` runs in: the starting filesystem and the
behaviour of the two external commands. -/
structure World where
  fs : FS
  initCmd : CmdSpec
  iconCmd : CmdSpec

/-- The `Application` record (src/types.ts:1), minus the opaque
`runner` pass-through. -/
structure Application where
  tauriPath : Path
  name : Json
  version : Json
  wixLanguage : Json

/-- The contents written by `writeFileSync(configPath,
JSON.stringify(config, null, 2))`: serialized strict JSON parses under
both the strict and the relaxed parser, and is neither valid TOML nor a
source of ignore rules. -/
def jsonDoc (j : Json) : Doc :=
  { strictJson := some j, json5 := some j, toml := none, ignoreRules := [] }

/-- The `if (bundleIdentifier)` block of `initProject`
(src/init-project.ts:47): `config.tauri = \x7b...config.tauri, bundle:
\x7b...config.tauri?.bundle, identifier: bundleIdentifier\x7d\x7d`. -/
def applyBundleIdentifier (config : Json) (bundleIdentifier : Option String) :
    Except JsError Json :=
  if bundleIdentifier.any (fun s => s != "") then
    match jsGet config "tauri" with
    | .error e => .error e
    | .ok t =>
      let bundle := optChainGet t "bundle"
      let newBundle := jsSpread1 bundle "identifier" (.str (bundleIdentifier.getD ""))
      let newTauri := jsSpread1 t "bundle" newBundle
      jsSetField config "tauri" newTauri
  else .ok config

/-- The config-merge section of `initProject` (src/init-project.ts:35):
`pkgConfig = \x7b...config.package, version: info.version\x7d`, an optional
`productName` override from the JS manifest, `config.package =
pkgConfig`, then the bundle-identifier merge. -/
def mergeConfig (config : Json) (packageJson : Option Json)
    (infoVersion : Json) (bundleIdentifier : Option String) :
    Except JsError Json :=
  match jsGet config "package" with
  | .error e => .error e
  | .ok pkg =>
    let pkgConfig0 := jsSpread1 pkg "version" infoVersion
    let pn := optChainGet packageJson "productName"
    let pkgConfig :=
      if jsTruthy pn then
        match pkgConfig0 with
        | .obj l => Json.obj (objSet l "productName" (pn.getD .null))
        | other => other   -- unreachable: jsSpread1 always builds an object
      else pkgConfig0
    match jsSetField config "package" pkgConfig with
    | .error e => .error e
    | .ok config1 => applyBundleIdentifier config1 bundleIdentifier

/-- `initProject` (src/init-project.ts:8).  `info.name`/`info.version`/
`info.wixLanguage` are strings per the TS `Info` interface and are
passed as JS values.  Returns the overall outcome together with the
final filesystem. -/
def initProject (w : World) (root : Path)
    (infoName infoVersion infoWixLanguage : Json)
    (iconPath bundleIdentifier : Option String) :
    Except JsError Application × FS :=
  match getPackageJson w.fs root with
  | .error e => (.error e, w.fs)
  | .ok packageJson =>
    let tauriPathOpt := getTauriDir w.fs root
    -- `await execCommand(runner, [..., 'init', ...])`
    let fs1 := w.initCmd.effect w.fs
    if w.initCmd.fails then (.error .initCommandFailed, fs1)
    else
      match tauriPathOpt with
      | none => (.error .exitTauriPathNotFound, fs1)
      | some tauriPath =>
        let configPath := tauriPath ++ ["tauri.conf.json"]
        match getConfig fs1 configPath with
        | .error e => (.error e, fs1)
        | .ok config =>
          match mergeConfig config packageJson infoVersion bundleIdentifier with
          | .error e => (.error e, fs1)
          | .ok merged =>
            let fs2 := writeFile fs1 configPath (jsonDoc merged)
            let app : Application := ⟨tauriPath, infoName, infoVersion, infoWixLanguage⟩
            if iconPath.any (fun s => s != "") then
              -- `await execCommand(runner, [..., 'icon', ...])`
              let fs3 := w.iconCmd.effect fs2
              if w.iconCmd.fails then (.error .iconCommandFailed, fs3)
              else (.ok app, fs3)
            else (.ok app, fs2)

/-! ### Observation helpers for the theorems -/

/-- The `bundle.windows.wix.language` value nested under `tauri`, read
with total lookups. -/
def wixLanguageOf (c : Json) : Option Json :=
  ((((jsonGet c "tauri").bind (fun j => jsonGet j "bundle")).bind
      (fun j => jsonGet j "windows")).bind
    (fun j => jsonGet j "wix")).bind (fun j => jsonGet j "language")

/-! ### Helper lemmas -/

lemma objLookup_objSet_self (l : List (String × Json)) (k : String) (v : Json) :
    objLookup (objSet l k v) k = some v := by
  induction l with
  | nil => simp [objSet, objLookup, List.find?]
  | cons kv rest ih =>
    by_cases h : kv.1 = k
    · simp [objSet, h, objLookup, List.find?]
    · simp only [objSet, if_neg h]
      simpa [objLookup, List.find?, h] using ih

lemma objLookup_objSet_ne (l : List (String × Json)) (k k' : String) (v : Json)
    (h : k' ≠ k) : objLookup (objSet l k v) k' = objLookup l k' := by
  induction l with
  | nil => simp [objSet, objLookup, List.find?, Ne.symm h]
  | cons kv rest ih =>
    by_cases hk : kv.1 = k
    · have hkv : kv.1 ≠ k' := by rw [hk]; exact Ne.symm h
      simp [objSet, if_pos hk, objLookup, List.find?, hkv, Ne.symm h]
    · by_cases hkv' : kv.1 = k'
      · simp only [objSet, if_neg hk]
        simp [objLookup, List.find?, hkv']
      · simp only [objSet, if_neg hk]
        simpa [objLookup, List.find?, hkv'] using ih

lemma find_map_replace (l : List (Path × Doc)) (p : Path) (d : Doc)
    (h : l.any (fun f => f.1 = p) = true) :
    (l.map (fun f => if f.1 = p then (p, d) else f)).find? (fun f => f.1 = p)
      = some (p, d) := by
  induction l with
  | nil => simp at h
  | cons g rest ih =>
    by_cases hg : g.1 = p
    · simp [List.find?, hg]
    · simp only [List.any_cons, Bool.or_eq_true, decide_eq_true_eq] at h
      rcases h with h | h
      · exact absurd h hg
      · simp [List.find?, hg, ih h]

lemma find_append_fresh (l : List (Path × Doc)) (p : Path) (d : Doc)
    (h : l.any (fun f => f.1 = p) = false) :
    (l ++ [(p, d)]).find? (fun f => f.1 = p) = some (p, d) := by
  induction l with
  | nil => simp [List.find?]
  | cons g rest ih =>
    simp only [List.any_cons, Bool.or_eq_false_iff, decide_eq_false_iff_not] at h
    obtain ⟨h1, h2⟩ := h
    simp only [List.cons_append, List.find?]
    simp [h1, ih (by simpa using h2)]

lemma readFile_writeFile (fs : FS) (p : Path) (d : Doc) :
    readFile (writeFile fs p d) p = some d := by
  unfold writeFile readFile
  by_cases h : fs.files.any (fun f => f.1 = p) = true
  · simp only [if_pos h]
    rw [find_map_replace _ _ _ h]
    rfl
  · simp only [if_neg h]
    rw [find_append_fresh _ _ _ (by rw [← Bool.not_eq_true]; exact h)]
    rfl

lemma targetDirWalk_empty (defv : String) (fuel : Nat) (dir : Path) :
    targetDirWalk ⟨[]⟩ defv fuel dir = .ok (.str defv) := by
  induction fuel generalizing dir with
  | zero => rfl
  | succ n ih =>
    unfold targetDirWalk
    by_cases h : dir = []
    · simp [h]
    · simp [h, readFile, List.find?, existsFile, ih]

/-! ### Claim C1 -/

/-- A filesystem whose crate directory `r` carries a `.cargo/config`
with a `build.target-dir` override. -/
def c1fs : FS :=
  ⟨[(["r", ".cargo", "config"],
    { toml := some (.obj [("build", .obj [("target-dir", .str "config-target")])]) })]⟩

/-- C1, counterexample: with both a local `.cargo/config`
`build.target-dir` override (worth `config-target`, as the walk alone
shows) and a `CARGO_TARGET_DIR` environment entry present, `getTargetDir`
returns the environment value — the environment override wins, not the
local configuration file, contradicting the claimed order. -/
theorem c1_counterexample :
    targetDirWalk c1fs "r/target" 1 ["r"] = .ok (.str "config-target") ∧
    getTargetDir ⟨true, some "env-target"⟩ c1fs ["r"] = .ok (.str "env-target") ∧
    "env-target" ≠ "config-target" :=
  ⟨rfl, rfl, by decide⟩

/-- C1 (amended): `getTargetDir` consults the `CARGO_TARGET_DIR`
environment entry first and returns it outright when the variable is
present; only in its absence does it walk upward consulting the local
`.cargo/config` / `.cargo/config.toml` files, and when nothing is found
it falls back to the `<crateDir>/target` default. -/
theorem c1_env_override_first (env : Env) (fs : FS) (crateDir : Path) :
    (∀ s, env.hasCargoTargetDir = true → env.cargoTargetDir = some s →
      getTargetDir env fs crateDir = .ok (.str s)) ∧
    (env.hasCargoTargetDir = false → ∀ doc t v,
      readFile fs (crateDir ++ [".cargo", "config"]) = some doc →
      doc.toml = some t →
      optChainGet (jsonGet t "build") "target-dir" = some v →
      jsTruthy (some v) = true →
      crateDir ≠ [] →
      getTargetDir env fs crateDir = .ok v) ∧
    (env.hasCargoTargetDir = false → fs.files = [] →
      getTargetDir env fs crateDir
        = .ok (.str (pathToString (crateDir ++ ["target"])))) := by
  refine ⟨?_, ?_, ?_⟩
  · intro s h1 h2
    unfold getTargetDir
    simp [h1, h2]
  · intro h0 doc t v h1 h2 h3 h4 hne
    unfold getTargetDir
    simp only [h0, Bool.false_eq_true, if_neg, if_false]
    obtain ⟨hd, tl⟩ := crateDir
    · exact absurd rfl hne
    · unfold targetDirWalk
      simp only [List.length_cons]
      simp only [List.cons_append] at h1
      simp [existsFile, h1, h2, h3, h4]
  · intro h0 hempty
    unfold getTargetDir
    simp only [h0, Bool.false_eq_true, if_neg, if_false]
    obtain ⟨files⟩ := fs
    simp only at hempty
    subst hempty
    exact targetDirWalk_empty _ _ _

/-- C1, witness for the amended theorem: with no environment override,
the crate directory's own `.cargo/config` override is returned. -/
theorem c1_witness :
    getTargetDir ⟨false, none⟩ c1fs ["r"] = .ok (.str "config-target") :=
  (c1_env_override_first ⟨false, none⟩ c1fs ["r"]).2.1 rfl _ _ _ rfl rfl rfl
    (by decide) (by decide)

/-! ### Claim C2 -/

/-- A world with no `tauri.conf.json` before the init command; the init
command itself creates `src-tauri/tauri.conf.json`. -/
def c2w : World :=
  { fs := ⟨[]⟩
  , initCmd := ⟨fun fs => ⟨fs.files ++
      [(["src-tauri", "tauri.conf.json"],
        jsonDoc (.obj [("package", .obj [("version", .str "0.1.0")])]))]⟩, false⟩
  , iconCmd := ⟨id, false⟩ }

/-- C2, counterexample: the init command creates the native-project
directory (resolving after it would find `src-tauri`), yet `initProject`
fails with the distinguished fatal error — the directory was resolved
before the init command ran, so a directory created by the init command
itself is not found. -/
theorem c2_counterexample :
    getTauriDir (c2w.initCmd.effect c2w.fs) [] = some ["src-tauri"] ∧
    (initProject c2w [] (.str "app") (.str "1.0.0") (.str "en-US") none none).1
      = .error .exitTauriPathNotFound :=
  ⟨rfl, rfl⟩

/-- C2 (amended): `initProject` resolves the native-project directory
from the filesystem as it is before the init command runs; when that
pre-init resolution finds nothing (and the init command itself exits
zero), the operation fails with the distinguished fatal error rather
than continuing with a default — regardless of anything the init
command created. -/
theorem c2_dir_resolved_before_init (w : World) (root : Path)
    (n v wl : Json) (ic bid : Option String) (pj : Option Json)
    (hpj : getPackageJson w.fs root = .ok pj)
    (hfail : w.initCmd.fails = false)
    (hnone : getTauriDir w.fs root = none) :
    (initProject w root n v wl ic bid).1 = .error .exitTauriPathNotFound := by
  unfold initProject
  simp [hpj, hfail, hnone]

/-- C2, witness for the amended theorem, at the world whose init
command creates the directory. -/
theorem c2_witness :
    (initProject c2w [] (.str "a") (.str "1") (.str "en-US") none none).1
      = .error .exitTauriPathNotFound :=
  c2_dir_resolved_before_init c2w [] _ _ _ none none none rfl rfl rfl

/-! ### Claim C3 -/

/-- A filesystem holding a single config file whose contents fail both
the strict and the relaxed parse, with no sibling `tauri.conf.json5`. -/
def c3fs : FS := ⟨[(["tauri.conf.json"], {})]⟩

/-- C3, counterexample: when the contents fail strict JSON, fail the
relaxed parse, and the sibling `tauri.conf.json5` does not exist, the
error propagated is the file-not-found error from reading the sibling —
not the original strict-JSON parse error the claim requires. -/
theorem c3_counterexample :
    readFile c3fs ["tauri.conf.json"] = some {} ∧
    readFile c3fs ["tauri.conf.json5"] = none ∧
    getConfig c3fs ["tauri.conf.json"] = .error (.fileNotFound ["tauri.conf.json5"]) ∧
    JsError.fileNotFound ["tauri.conf.json5"] ≠ JsError.parseError ["tauri.conf.json"] :=
  ⟨rfl, rfl, rfl, by decide⟩

/-- C3 (amended): on strict-JSON failure `getConfig` tries a relaxed
parse of the same contents, then a relaxed parse of the sibling
`tauri.conf.json5`, returning the first success; when the sibling file
exists but all three parses fail, the original strict-JSON parse error
is propagated; when the sibling file does not exist, the propagated
error is the sibling read failure instead. -/
theorem c3_parse_fallback_chain (fs : FS) (p : Path) (doc : Doc)
    (hread : readFile fs p = some doc)
    (hstrict : doc.strictJson = none) :
    (∀ c, doc.json5 = some c → getConfig fs p = .ok c) ∧
    (doc.json5 = none → ∀ sdoc, readFile fs (siblingJson5 p) = some sdoc →
      (∀ c, sdoc.json5 = some c → getConfig fs p = .ok c) ∧
      (sdoc.json5 = none → getConfig fs p = .error (.parseError p))) ∧
    (doc.json5 = none → readFile fs (siblingJson5 p) = none →
      getConfig fs p = .error (.fileNotFound (siblingJson5 p))) := by
  refine ⟨?_, ?_, ?_⟩
  · intro c hc
    simp [getConfig, getJson5Config, hread, hstrict, hc]
  · intro h5 sdoc hsread
    refine ⟨?_, ?_⟩
    · intro c hc
      simp [getConfig, getJson5Config, hread, hstrict, h5, hsread, hc]
    · intro hs5
      simp [getConfig, getJson5Config, hread, hstrict, h5, hsread, hs5]
  · intro h5 hsnone
    simp [getConfig, getJson5Config, hread, hstrict, h5, hsnone]

/-- A filesystem where the config and its sibling `tauri.conf.json5`
both exist and both fail every parse. -/
def c3fsBoth : FS := ⟨[(["tauri.conf.json"], {}), (["tauri.conf.json5"], {})]⟩

/-- C3, witness for the amended theorem: with the sibling present and
all three parses failing, the original strict-JSON error is the one
propagated. -/
theorem c3_witness :
    getConfig c3fsBoth ["tauri.conf.json"] = .error (.parseError ["tauri.conf.json"]) :=
  ((c3_parse_fallback_chain c3fsBoth ["tauri.conf.json"] {} rfl rfl).2.1 rfl {} rfl).2 rfl

/-! ### Claim C7 -/

/-- C7: the asset namer takes the first matching suffix of the fixed
ordered list, falls back to the filesystem extension when none match,
appends an architecture tag only for the app-bundle archive suffixes
(`_universal`/`_aarch64`/`_x64` by marker substrings of the full path),
and inserts `-debug` exactly when the path contains a debug directory
segment; the two concrete cases of the claim are as stated. -/
theorem c7_asset_naming :
    getAssetName "/r/target/aarch64-apple-darwin/debug/bundle/macos/MyApp.app.tar.gz"
      = "MyApp-debug_aarch64.app.tar.gz" ∧
    getAssetName "MyApp.msi" = "MyApp.msi" ∧
    (∀ p, assetArch p ≠ "" →
      assetExt p = ".app.tar.gz.sig" ∨ assetExt p = ".app.tar.gz") ∧
    (∀ p, (assetExt p = ".app.tar.gz.sig" ∨ assetExt p = ".app.tar.gz") →
      (strIncludes p "universal-apple-darwin" = true → assetArch p = "_universal") ∧
      (strIncludes p "universal-apple-darwin" = false →
        strIncludes p "aarch64-apple-darwin" = true → assetArch p = "_aarch64") ∧
      (strIncludes p "universal-apple-darwin" = false →
        strIncludes p "aarch64-apple-darwin" = false → assetArch p = "_x64")) ∧
    (∀ p, extensions.filter (fun s => strIncludes (basename p) s) = [] →
      assetExt p = extname p) ∧
    (∀ p, strIncludes p "/debug/" = false →
      getAssetName p = assetFilename p ++ assetArch p ++ assetExt p) := by
  refine ⟨by decide, by decide, ?_, ?_, ?_, ?_⟩
  · intro p h
    unfold assetArch at h
    by_cases hb : assetExt p = ".app.tar.gz.sig" ∨ assetExt p = ".app.tar.gz"
    · exact hb
    · simp only [if_neg hb] at h
      exact absurd rfl h
  · intro p hb
    refine ⟨?_, ?_, ?_⟩
    · intro hu
      simp [assetArch, hb, hu]
    · intro hu ha
      simp [assetArch, hb, hu, ha]
    · intro hu ha
      simp [assetArch, hb, hu, ha]
  · intro p hfilter
    simp [assetExt, hfilter]
  · intro p hdebug
    simp [getAssetName, hdebug]

/-- C7, witness: a universal-marker bundle path gets the `_universal`
tag. -/
theorem c7_witness :
    assetArch "/t/universal-apple-darwin/A.app.tar.gz" = "_universal" :=
  ((c7_asset_naming.2.2.2.1 "/t/universal-apple-darwin/A.app.tar.gz"
    (Or.inr (by decide))).1) (by decide)

/-! ### Claim C4 -/

/-- C4: when the native config sets only `package.version` (a plain
non-empty version not ending in `.json`) and the `Cargo.toml` manifest
sets both `package.name` and `package.version`, `getInfo` takes the
version from the config and the name from the manifest; the
config-supplied version is not overwritten by the manifest value. -/
theorem c4_config_over_manifest (fs : FS) (root tauriDir : Path)
    (ver cname cver : String) (cargoDoc : Doc)
    (h1 : getTauriDir fs root = some tauriDir)
    (h2 : getConfig fs (tauriDir ++ ["tauri.conf.json"])
      = .ok (.obj [("package", .obj [("version", .str ver)])]))
    (h3 : ver ≠ "")
    (h4 : strEndsWith ver ".json" = false)
    (h5 : readFile fs (tauriDir ++ ["Cargo.toml"]) = some cargoDoc)
    (h6 : cargoDoc.toml = some (.obj [("package",
      .obj [("name", .str cname), ("version", .str cver)])]))
    (h7 : cname ≠ "") :
    getInfo fs root none
      = .ok ⟨some tauriDir, some (.str cname), some (.str ver), .str "en-US"⟩ := by
  unfold getInfo
  simp [h1, h2, h3, h4, h5, h6, h7, nameVersionFromPackage, fillFromCargo,
    wixFromConfig, jsGet, jsGetOpt, jsonGet, objLookup, optChainGet, jsTruthy,
    jsOrAccess, List.find?]

/-- The C4 world: config with only a version, manifest with both. -/
def c4fs : FS := ⟨[
  (["app", "src-tauri", "tauri.conf.json"],
    jsonDoc (.obj [("package", .obj [("version", .str "1.2.3")])])),
  (["app", "src-tauri", "Cargo.toml"],
    { toml := some (.obj [("package",
        .obj [("name", .str "crate-name"), ("version", .str "9.9.9")])]) })]⟩

/-- C4, witness: name `crate-name` from the manifest, version `1.2.3`
from the config (the manifest's `9.9.9` does not overwrite it). -/
theorem c4_witness :
    getInfo c4fs ["app"] none
      = .ok ⟨some ["app", "src-tauri"], some (.str "crate-name"),
          some (.str "1.2.3"), .str "en-US"⟩ :=
  c4_config_over_manifest c4fs ["app"] ["app", "src-tauri"] "1.2.3" "crate-name"
    "9.9.9" _ rfl rfl (by decide) (by decide) rfl rfl (by decide)

/-! ### Claim C5 -/

/-- C5: when the config's `package.version` ends with `.json`, it is
treated as a path relative to the native-project directory; the
`version` field of the file found there becomes the resolved version. -/
theorem c5_version_pointer (fs : FS) (root tauriDir : Path)
    (pn s v : String) (pointed : Doc) (pj : Json)
    (h1 : getTauriDir fs root = some tauriDir)
    (h2 : getConfig fs (tauriDir ++ ["tauri.conf.json"])
      = .ok (.obj [("package",
          .obj [("productName", .str pn), ("version", .str s)])]))
    (h3 : pn ≠ "")
    (h4 : strEndsWith s ".json" = true)
    (h5 : readFile fs (tauriDir ++ splitPath s) = some pointed)
    (h6 : pointed.strictJson = some pj)
    (h7 : jsonGet pj "version" = some (.str v))
    (h8 : pj ≠ .null)
    (h9 : v ≠ "") :
    getInfo fs root none
      = .ok ⟨some tauriDir, some (.str pn), some (.str v), .str "en-US"⟩ := by
  cases pj with
  | null => exact absurd rfl h8
  | bool b => simp [jsonGet] at h7
  | num n => simp [jsonGet] at h7
  | str s2 => simp [jsonGet] at h7
  | obj l =>
    simp only [jsonGet, objLookup] at h7
    unfold getInfo
    simp [h1, h2, h3, h4, h5, h6, h7, h9, nameVersionFromPackage, fillFromCargo,
      wixFromConfig, jsGet.eq_def, jsGetOpt, jsonGet, objLookup, optChainGet,
      jsTruthy, jsOrAccess, List.find?]

/-- The C5 world of the claim: `package.version = "sub/package.json"`
and that file containing a `version` of `2.3.4`. -/
def c5fs : FS := ⟨[
  (["app", "src-tauri", "tauri.conf.json"],
    jsonDoc (.obj [("package", .obj [("productName", .str "My App"),
      ("version", .str "sub/package.json")])])),
  (["app", "src-tauri", "sub", "package.json"],
    jsonDoc (.obj [("version", .str "2.3.4")]))]⟩

/-- C5, witness: the pointed-to file's `version` field, `2.3.4`, is the
resolved version. -/
theorem c5_witness :
    getInfo c5fs ["app"] none
      = .ok ⟨some ["app", "src-tauri"], some (.str "My App"),
          some (.str "2.3.4"), .str "en-US"⟩ :=
  c5_version_pointer c5fs ["app"] ["app", "src-tauri"] "My App"
    "sub/package.json" "2.3.4" _ _ rfl rfl (by decide) (by decide) rfl rfl rfl
    (fun h => Json.noConfusion h) (by decide)

/-! ### Claim C6 -/

/-- C6: with no native-project directory, `getInfo` returns immediately
from the JS manifest alone: with no manifest either, name `app` and
version `0.1.0`; with a manifest, the displayName-or-name with spaces
hyphenated and the manifest's version; locale-config is the default and
the native-project path is absent. -/
theorem c6_js_manifest_fallback (fs : FS) (root : Path) (icp : Option Path)
    (h : getTauriDir fs root = none) :
    (getPackageJson fs root = .ok none →
      getInfo fs root icp
        = .ok ⟨none, some (.str "app"), some (.str "0.1.0"), .str "en-US"⟩) ∧
    (∀ j s, getPackageJson fs root = .ok (some j) →
      jsTruthy (some j) = true →
      jsOr (optChainGet (some j) "displayName") (optChainGet (some j) "name")
        = some (.str s) →
      getInfo fs root icp
        = .ok ⟨none, some (.str (replaceSpaces s)),
            optChainGet (some j) "version", .str "en-US"⟩) := by
  constructor
  · intro hpj
    unfold getInfo
    simp [h, hpj, jsTruthy]
  · intro j s hpj htr hname
    unfold getInfo
    simp [h, hpj, htr, hname]

/-- C6, witness: with neither a native project nor a JS manifest the
result is name `app`, version `0.1.0`. -/
theorem c6_witness :
    getInfo ⟨[]⟩ [] none
      = .ok ⟨none, some (.str "app"), some (.str "0.1.0"), .str "en-US"⟩ :=
  (c6_js_manifest_fallback ⟨[]⟩ [] none rfl).1 rfl

/-! ### Claim C10 -/

/-- C10: with no native project but a JS manifest present that declares
neither `displayName` nor `name`, `getInfo` throws (the hyphen
substitution is applied to an undefined value) instead of returning the
`app` default. -/
theorem c10_nameless_manifest_throws (fs : FS) (root : Path)
    (icp : Option Path) (j : Json)
    (h1 : getTauriDir fs root = none)
    (h2 : getPackageJson fs root = .ok (some j))
    (h3 : jsTruthy (some j) = true)
    (h4 : jsonGet j "displayName" = none)
    (h5 : jsonGet j "name" = none) :
    getInfo fs root icp = .error .typeError := by
  have hop : ∀ k, jsonGet j k = none → optChainGet (some j) k = none := by
    intro k hk
    cases j <;> simp_all [optChainGet, jsTruthy]
  unfold getInfo
  simp [h1, h2, h3, jsOr, hop _ h4, hop _ h5]

/-- The C10 world: a `package.json` with only a version field. -/
def c10fs : FS :=
  ⟨[(["package.json"], jsonDoc (.obj [("version", .str "3.0.0")]))]⟩

/-- C10, witness: the nameless-manifest world throws. -/
theorem c10_witness : getInfo c10fs [] none = .error .typeError :=
  c10_nameless_manifest_throws c10fs [] none
    (.obj [("version", .str "3.0.0")]) rfl rfl rfl rfl rfl

/-! ### Claim C8 -/

lemma objLookup_nil (k : String) : objLookup [] k = none := rfl

lemma objLookup_cons (k k' : String) (v : Json) (rest : List (String × Json)) :
    objLookup ((k, v) :: rest) k' = if k = k' then some v else objLookup rest k' := by
  by_cases h : k = k' <;> simp [objLookup, List.find?, h]

lemma wixLanguageOf_applyBundleIdentifier (config : Json) (bid : Option String)
    (out : Json) (h : applyBundleIdentifier config bid = .ok out) :
    wixLanguageOf out = wixLanguageOf config := by
  unfold applyBundleIdentifier at h
  by_cases hb : bid.any (fun s => s != "") = true
  · simp only [if_pos hb] at h
    cases config with
    | null => simp [jsGet] at h
    | bool b => simp [jsGet, jsSetField] at h
    | num n => simp [jsGet, jsSetField] at h
    | str s => simp [jsGet, jsSetField] at h
    | obj l =>
      simp only [jsGet, jsonGet, jsSetField, Except.ok.injEq] at h
      subst h
      cases htl : objLookup l "tauri" with
      | none =>
        simp [wixLanguageOf, jsonGet, objLookup_objSet_self, htl, jsSpread1,
          optChainGet, objLookup_cons, objLookup_nil]
      | some tj =>
        cases tj with
        | null =>
          simp [wixLanguageOf, jsonGet, objLookup_objSet_self, htl, jsSpread1,
            optChainGet, objLookup_cons, objLookup_nil]
        | bool b =>
          simp [wixLanguageOf, jsonGet, objLookup_objSet_self, htl, jsSpread1,
            optChainGet, objLookup_cons, objLookup_nil]
        | num n =>
          simp [wixLanguageOf, jsonGet, objLookup_objSet_self, htl, jsSpread1,
            optChainGet, objLookup_cons, objLookup_nil]
        | str s =>
          simp [wixLanguageOf, jsonGet, objLookup_objSet_self, htl, jsSpread1,
            optChainGet, objLookup_cons, objLookup_nil]
        | obj tl =>
          cases hbl : objLookup tl "bundle" with
          | none =>
            simp [wixLanguageOf, jsonGet, objLookup_objSet_self, htl, hbl,
              jsSpread1, optChainGet, objLookup_cons, objLookup_nil]
          | some bj =>
            cases bj with
            | obj bl =>
              have hne : objLookup (objSet bl "identifier"
                  (.str (bid.getD ""))) "windows" = objLookup bl "windows" :=
                objLookup_objSet_ne _ _ _ _ (by decide)
              simp [wixLanguageOf, jsonGet, objLookup_objSet_self, htl, hbl,
                jsSpread1, optChainGet, hne]
            | null =>
              simp [wixLanguageOf, jsonGet, objLookup_objSet_self, htl, hbl,
                jsSpread1, optChainGet, objLookup_cons, objLookup_nil]
            | bool b =>
              simp [wixLanguageOf, jsonGet, objLookup_objSet_self, htl, hbl,
                jsSpread1, optChainGet, objLookup_cons, objLookup_nil]
            | num n =>
              simp [wixLanguageOf, jsonGet, objLookup_objSet_self, htl, hbl,
                jsSpread1, optChainGet, objLookup_cons, objLookup_nil]
            | str s =>
              simp [wixLanguageOf, jsonGet, objLookup_objSet_self, htl, hbl,
                jsSpread1, optChainGet, objLookup_cons, objLookup_nil]
  · simp only [if_neg hb, Except.ok.injEq] at h
    subst h
    rfl

lemma wixLanguageOf_objSet_package (l : List (String × Json)) (x : Json) :
    wixLanguageOf (.obj (objSet l "package" x)) = wixLanguageOf (.obj l) := by
  have hne := objLookup_objSet_ne l "package" "tauri" x (by decide)
  simp [wixLanguageOf, jsonGet, hne]

/-- C8: the `initProject` config merge — in particular the
bundle-identifier update — is structural: whatever the merge returns,
the nested `tauri.bundle.windows.wix.language` value of the prior
config is preserved unchanged. -/
theorem c8_identifier_merge_preserves_wix (config : Json)
    (packageJson : Option Json) (infoVersion : Json) (bid : Option String)
    (out : Json) (h : mergeConfig config packageJson infoVersion bid = .ok out) :
    wixLanguageOf out = wixLanguageOf config := by
  unfold mergeConfig at h
  cases config with
  | null => simp [jsGet] at h
  | bool b => simp [jsGet, jsSetField] at h
  | num n => simp [jsGet, jsSetField] at h
  | str s => simp [jsGet, jsSetField] at h
  | obj l =>
    simp only [jsGet, jsonGet, jsSetField] at h
    rw [wixLanguageOf_applyBundleIdentifier _ _ _ h, wixLanguageOf_objSet_package]

/-- A config carrying an existing `bundle.windows.wix.language`. -/
def c8cfg : Json :=
  .obj [("package", .obj []), ("tauri", .obj [("bundle", .obj
    [("windows", .obj [("wix", .obj [("language", .str "de-DE")])])])])]

/-- C8, witness: an identifier-only update of `c8cfg` leaves the
existing `bundle.windows.wix.language` (`de-DE`) in place. -/
theorem c8_witness :
    wixLanguageOf (.obj [("package", .obj [("version", .str "1.0.0")]),
      ("tauri", .obj [("bundle", .obj
        [("windows", .obj [("wix", .obj [("language", .str "de-DE")])]),
         ("identifier", .str "com.x.y")])])])
      = wixLanguageOf c8cfg :=
  c8_identifier_merge_preserves_wix c8cfg none (.str "1.0.0")
    (some "com.x.y") _ rfl

/-! ### Claim C9 -/

/-- C9: `initProject` persists the merged config before invoking the
icon command and performs no rollback: when the icon command fails (and
does not itself touch the config file), the operation aborts with the
icon-command error while the rewritten `tauri.conf.json` — the merged
config, not the prior contents — is on disk. -/
theorem c9_config_persisted_no_rollback (w : World) (root : Path)
    (n v wl : Json) (iconPath bid : Option String)
    (pj : Option Json) (tdir : Path) (cfg merged : Json)
    (hpj : getPackageJson w.fs root = .ok pj)
    (htd : getTauriDir w.fs root = some tdir)
    (hinit : w.initCmd.fails = false)
    (hcfg : getConfig (w.initCmd.effect w.fs) (tdir ++ ["tauri.conf.json"]) = .ok cfg)
    (hmerge : mergeConfig cfg pj v bid = .ok merged)
    (hicon : iconPath.any (fun s => s != "") = true)
    (hfails : w.iconCmd.fails = true)
    (hpres : ∀ fsx, readFile (w.iconCmd.effect fsx) (tdir ++ ["tauri.conf.json"])
      = readFile fsx (tdir ++ ["tauri.conf.json"])) :
    (initProject w root n v wl iconPath bid).1 = .error .iconCommandFailed ∧
    readFile (initProject w root n v wl iconPath bid).2 (tdir ++ ["tauri.conf.json"])
      = some (jsonDoc merged) := by
  unfold initProject
  simp [hpj, htd, hinit, hcfg, hmerge, hicon, hfails, hpres, readFile_writeFile]

/-- The C9 world: a config exists; the icon command fails without
touching the filesystem. -/
def c9w : World :=
  { fs := ⟨[(["src-tauri", "tauri.conf.json"],
      jsonDoc (.obj [("package", .obj []), ("tauri", .obj [("bundle", .obj
        [("windows", .obj [("wix", .obj [("language", .str "fr-FR")])])])])]))]⟩
  , initCmd := ⟨id, false⟩
  , iconCmd := ⟨id, true⟩ }

/-- C9, witness: the icon failure aborts the run, yet the merged config
(version rewritten to `1.0.0`) is on disk afterwards. -/
theorem c9_witness :
    (initProject c9w [] (.str "app") (.str "1.0.0") (.str "en-US")
        (some "icon.png") none).1 = .error .iconCommandFailed ∧
    readFile (initProject c9w [] (.str "app") (.str "1.0.0") (.str "en-US")
        (some "icon.png") none).2 (["src-tauri"] ++ ["tauri.conf.json"])
      = some (jsonDoc (.obj [("package", .obj [("version", .str "1.0.0")]),
          ("tauri", .obj [("bundle", .obj
            [("windows", .obj [("wix", .obj [("language", .str "fr-FR")])])])])])) :=
  c9_config_persisted_no_rollback c9w [] (.str "app") (.str "1.0.0")
    (.str "en-US") (some "icon.png") none none ["src-tauri"] _ _
    rfl rfl rfl rfl rfl rfl rfl (fun _ => rfl)

end TauriAction
